import Mathlib

/-!
Shallow embedding of `src/icechunk-python/python/icechunk/xarray.py`:
the Icechunk xarray writer (`LazyArrayWriter`, `XarrayDatasetWriter`,
`to_icechunk`, `merge_stores`, `extract_stores`, `is_chunked_array`).

Modelling conventions:
* A chunk/array location is a `Nat`; a written value is a `Nat`.
* A source value (the `source` argument of `ArrayWriter.add`) is a `Value`
  carrying whether `dask.base.is_dask_collection` holds of it and whether
  computing/storing it raises (used only for deferred chunk tasks).
* An `IcechunkStore` handle is modelled by its pending transaction, a list
  of write records (the change-set contents), together with a log of the
  change-sets passed to its `merge` method, so that "merge is called
  exactly once / never" is visible in the model.
* Python exceptions are modelled by `Outcome`: `raised e s` carries the
  state of the world at the time of the raise, so "the store is left
  unchanged" is statable.
-/

namespace Icechunk

/-- An array/chunk target location inside the store. -/
abbrev Loc := Nat

/-- The index applied in `target[region or ...] = source`: either the whole
array (`...`, when `region` is `None`) or a sub-region. -/
inductive Idx where
  | whole : Idx
  | sub (r : Nat) : Idx
deriving DecidableEq

/-- `region or ...`: a `None` region selects the whole array, a given region
selects that sub-region. -/
def regionToIdx : Option Nat → Idx
  | none => Idx.whole
  | some r => Idx.sub r

/-- A source value handed to `ArrayWriter.add`. `isDaskCollection` models
`dask.base.is_dask_collection(x)`; `failsCompute` models whether computing
or locally storing this value raises (relevant to deferred tasks only);
`data` is the materialized payload. -/
structure Value where
  isDaskCollection : Bool
  failsCompute : Bool
  data : Nat
deriving DecidableEq

/-- One recorded mutation: value written at a target location under an index. -/
structure WriteRec where
  target : Loc
  index : Idx
  value : Nat
deriving DecidableEq

/-- A change-set: the serializable record of pending mutations
(`Store.change_set_bytes()` contents). -/
abbrev ChangeSet := List WriteRec

/-- An `IcechunkStore` handle: its pending transaction (list of mutations in
application order) plus the log of change-sets its `merge` method received. -/
structure IcechunkStore where
  pending : List WriteRec
  mergeLog : List ChangeSet
deriving DecidableEq

instance : Inhabited IcechunkStore := ⟨⟨[], []⟩⟩

/-- `store.change_set_bytes()`: serialize the handle's pending mutations. -/
def IcechunkStore.change_set_bytes (s : IcechunkStore) : ChangeSet :=
  s.pending

/-- `store.merge(change_set_bytes)`: apply the change-set on top of the
handle's pending transaction; the call is recorded in the merge log. -/
def IcechunkStore.merge (s : IcechunkStore) (cs : ChangeSet) : IcechunkStore :=
  { pending := s.pending ++ cs, mergeLog := s.mergeLog ++ [cs] }

/-- `target[region or ...] = source`: one direct array write into the
handle's pending transaction (no `merge` involved). -/
def IcechunkStore.write (s : IcechunkStore) (r : WriteRec) : IcechunkStore :=
  { s with pending := s.pending ++ [r] }

/-- Store-visible content of a list of mutations at one location/index:
the last write wins (later entries of the pending list override earlier
ones at the same location). -/
def lookupCS : List WriteRec → Loc → Idx → Option Nat
  | [], _, _ => none
  | r :: rest, t, i =>
    match lookupCS rest t i with
    | some v => some v
    | none => if r.target = t ∧ r.index = i then some r.value else none

/-- Two mutation lists have the same store-visible effect when they yield
the same final content at every location/index. -/
def EffectEq (a b : List WriteRec) : Prop :=
  ∀ t i, lookupCS a t i = lookupCS b t i

/-- Two change-sets target pairwise disjoint locations. -/
abbrev DisjointCS (a b : List WriteRec) : Prop :=
  ∀ r ∈ a, ∀ r' ∈ b, r.target ≠ r'.target

/-- `extract_stores(zarray)`: a stored zarr array's backing store handle. -/
structure ZarrArray where
  store : IcechunkStore
deriving DecidableEq

/-- `extract_stores` from xarray.py: return `zarray.store`. -/
def extract_stores (zarray : ZarrArray) : IcechunkStore :=
  zarray.store

/-- `merge_stores(*stores)` from xarray.py: take the first handle and merge
each remaining handle's change-set into it, in order. Python unpacking
raises on an empty argument list, hence `Option`. -/
def merge_stores (stores : List IcechunkStore) : Option IcechunkStore :=
  match stores with
  | [] => none
  | store :: rest =>
    some (rest.foldl (fun acc other => acc.merge other.change_set_bytes) store)

/-- Total variant of `merge_stores` used inside the tree reduction, where
every group is nonempty (the empty case is unreachable there). -/
def mergeStoresNE (stores : List IcechunkStore) : IcechunkStore :=
  match stores with
  | [] => default
  | store :: rest =>
    rest.foldl (fun acc other => acc.merge other.change_set_bytes) store

/-- Python exceptions over explicit state. -/
inductive Err where
  | valueError (msg : String)
  | taskExecutionError (target : Loc)
deriving DecidableEq

/-- The error raised when a phase runs before `write_metadata`
(`ValueError("Please call write_metadata first.")` in the code; the spec's
`NotInitializedError`). -/
def NotInitializedError : Err :=
  Err.valueError "Please call `write_metadata` first."

/-- Result of a statement that may raise: `raised e s` carries the state of
the world at the moment the exception propagates. -/
inductive Outcome (α : Type) where
  | ok (a : α)
  | raised (e : Err) (a : α)
deriving DecidableEq

/-- `has_dask`: whether the optional dask dependency imported successfully.
A module-level flag in the source; a parameter here. -/
abbrev HasDask := Bool

/-- `is_chunked_array(x)` from xarray.py: `dask.base.is_dask_collection(x)`
when dask is importable, `False` otherwise. -/
def is_chunked_array (has_dask : HasDask) (x : Value) : Bool :=
  if has_dask then x.isDaskCollection else false

/-- `LazyArrayWriter`: the three deferred task lists inherited from
xarray's `ArrayWriter` (`sources`/`targets`/`regions`) and the three eager
task lists added by `__init__`. -/
structure LazyArrayWriter where
  sources : List Value
  targets : List Loc
  regions : List (Option Nat)
  eager_sources : List Value
  eager_targets : List Loc
  eager_regions : List (Option Nat)
deriving DecidableEq

/-- `LazyArrayWriter()`: all six lists start empty. -/
def LazyArrayWriter.init : LazyArrayWriter :=
  ⟨[], [], [], [], [], []⟩

/-- `LazyArrayWriter.add(source, target, region=None)`: a chunked source is
appended to the deferred lists, any other source to the eager lists. -/
def LazyArrayWriter.add (has_dask : HasDask) (w : LazyArrayWriter)
    (source : Value) (target : Loc) (region : Option Nat) : LazyArrayWriter :=
  if is_chunked_array has_dask source then
    { w with
      sources := w.sources ++ [source]
      targets := w.targets ++ [target]
      regions := w.regions ++ [region] }
  else
    { w with
      eager_sources := w.eager_sources ++ [source]
      eager_targets := w.eager_targets ++ [target]
      eager_regions := w.eager_regions ++ [region] }

/-- The loop body of `LazyArrayWriter.write_eager`:
`target[region or ...] = source`. -/
def writeOne (s : IcechunkStore) (source : Value) (target : Loc)
    (region : Option Nat) : IcechunkStore :=
  s.write ⟨target, regionToIdx region, source.data⟩

/-- `for source, target, region in zip(..., strict=True): target[region or ...] = source`:
writes proceed in lockstep; when one list is exhausted before the others,
`zip(strict=True)` raises `ValueError` after the common prefix was written. -/
def zipStrictWrites :
    List Value → List Loc → List (Option Nat) → IcechunkStore →
      Outcome IcechunkStore
  | [], [], [], s => Outcome.ok s
  | v :: vs, t :: ts, r :: rs, s => zipStrictWrites vs ts rs (writeOne s v t r)
  | _, _, _, s => Outcome.raised (Err.valueError "zip strict length mismatch") s

/-- `LazyArrayWriter.write_eager()`: run every eager task against the store,
then drain the three eager lists. On a `zip` length mismatch the exception
propagates before the drain. -/
def LazyArrayWriter.write_eager (w : LazyArrayWriter) (s : IcechunkStore) :
    Outcome (LazyArrayWriter × IcechunkStore) :=
  match zipStrictWrites w.eager_sources w.eager_targets w.eager_regions s with
  | Outcome.ok s' =>
    Outcome.ok
      ({ w with eager_sources := [], eager_targets := [], eager_regions := [] }, s')
  | Outcome.raised e s' => Outcome.raised e (w, s')

/-- The write records an eager run appends, in list order. -/
def eagerRecs : List Value → List Loc → List (Option Nat) → List WriteRec
  | v :: vs, t :: ts, r :: rs =>
    ⟨t, regionToIdx r, v.data⟩ :: eagerRecs vs ts rs
  | _, _, _ => []

/-- Modelled from the spec: ChunkTask execution (§4.3). The code's deferred
path runs through `ArrayWriter.sync` / `dask.array.store` (external xarray
and dask machinery, not under src/): each deferred task computes its source
value, writes it into a task-local derived store handle and yields the
stored zarr array; if the computation or the local write fails, the task
fails with a `TaskExecutionError` carrying the target location. -/
def runChunkTask (source : Value) (target : Loc) (region : Option Nat) :
    Except Err ZarrArray :=
  if source.failsCompute then Except.error (Err.taskExecutionError target)
  else
    Except.ok ⟨{ pending := [⟨target, regionToIdx region, source.data⟩],
                 mergeLog := [] }⟩

/-- Modelled from the spec: the parallel task runner (§6) returns the
results of the chunk tasks in input order or raises the first encountered
failure. Lists are consumed in lockstep. -/
def runChunkTasks :
    List Value → List Loc → List (Option Nat) → Except Err (List ZarrArray)
  | [], [], [] => Except.ok []
  | v :: vs, t :: ts, r :: rs => do
    let z ← runChunkTask v t r
    let zs ← runChunkTasks vs ts rs
    Except.ok (z :: zs)
  | _, _, _ => Except.error (Err.valueError "length mismatch")

/-- Split a list into contiguous groups of at most `max 1 n` elements. -/
def chunksOf (n : Nat) (l : List α) : List (List α) :=
  if l.isEmpty then []
  else l.take (max 1 n) :: chunksOf n (l.drop (max 1 n))
termination_by l.length
decreasing_by
  simp only [List.isEmpty_iff] at *
  simp only [List.length_drop]
  have : 0 < l.length := List.length_pos.mpr (by assumption)
  omega

theorem chunksOf_length_le (n : Nat) (l : List α) :
    (chunksOf n l).length ≤ l.length := by
  rw [chunksOf]
  split
  · simp
  · rename_i h
    have hne : l ≠ [] := by simpa [List.isEmpty_iff] using h
    have hpos : 0 < l.length := List.length_pos.mpr hne
    have ih := chunksOf_length_le n (l.drop (max 1 n))
    simp only [List.length_cons, List.length_drop] at *
    omega
termination_by l.length
decreasing_by
  simp only [List.length_drop]
  omega

theorem chunksOf_length_lt (n : Nat) (l : List α) (hn : 2 ≤ n)
    (hl : 2 ≤ l.length) : (chunksOf n l).length < l.length := by
  rw [chunksOf]
  split
  · rename_i h
    rw [List.isEmpty_iff] at h
    simp [h] at hl
  · have hle := chunksOf_length_le n (l.drop (max 1 n))
    simp only [List.length_cons, List.length_drop] at *
    omega

/-- Modelled from the spec: the TreeReducer (§4.2). Partition the items into
contiguous groups of at most the branching factor (clamped to at least 2 so
the reduction shrinks), combine each group with one call to `combine`,
recurse until one value remains; a single item is returned unchanged. -/
def treeReduce (n : Nat) (combine : List α → α) (l : List α) : Option α :=
  match l with
  | [] => none
  | [x] => some x
  | a :: b :: rest =>
    if (a :: b :: rest).length ≤ max 2 n then some (combine (a :: b :: rest))
    else treeReduce n combine ((chunksOf (max 2 n) (a :: b :: rest)).map combine)
termination_by l.length
decreasing_by
  simp only [List.length_map]
  have h2 : 2 ≤ max 2 n := Nat.le_max_left 2 n
  have hlt := chunksOf_length_lt (max 2 n) (a :: b :: rest) h2
    (by simp only [List.length_cons]; omega)
  simpa using hlt

/-- Modelled from the spec: `stateful_store_reduce` from the repository's
dask module (imported by xarray.py, not under src/). Tree-reduces the
stored arrays with `chunk=extract_stores` (map each stored zarr array to
its store handle) and `aggregate=merge_stores` (merge each group's handles
into the group's first); `split_every` is the branching factor, with an
implementation-chosen default when `None`. Empty input yields no store. -/
def stateful_store_reduce (split_every : Option Nat)
    (stored_arrays : List ZarrArray) : Option IcechunkStore :=
  treeReduce (split_every.getD 8) mergeStoresNE (stored_arrays.map extract_stores)

/-- A dataset, reduced to what the writer consumes: the (source, target,
region) triples that `dump_to_store` feeds to `writer.add`, one per
variable write. -/
abbrev Dataset := List (Value × Loc × Option Nat)

/-- The `store` argument of `XarrayDatasetWriter` / `to_icechunk`: either an
`IcechunkStore` handle or a value of some other type. -/
inductive StoreArg where
  | icechunk (s : IcechunkStore)
  | other (tyName : String)
deriving DecidableEq

/-- `XarrayDatasetWriter` after successful construction: the dataset, the
canonical store handle, the `_initialized` flag, and the `writer`
(`LazyArrayWriter`, created by `write_metadata`). -/
structure XarrayDatasetWriter where
  dataset : Dataset
  store : IcechunkStore
  _initialized : Bool
  writer : LazyArrayWriter
deriving DecidableEq

/-- Dataclass construction followed by `__post_init__`: a store argument
that is not an `IcechunkStore` raises `ValueError` before anything else
happens; otherwise the writer starts uninitialized. -/
def mkXarrayDatasetWriter (dataset : Dataset) (store : StoreArg) :
    Except Err XarrayDatasetWriter :=
  match store with
  | StoreArg.other tyName =>
    Except.error (Err.valueError
      ("Please pass in an IcechunkStore. Recevied " ++ tyName ++ " instead."))
  | StoreArg.icechunk s =>
    Except.ok
      { dataset := dataset, store := s, _initialized := false
        writer := LazyArrayWriter.init }

/-- `XarrayDatasetWriter.write_metadata`. The validation and metadata dump
run through external xarray collaborators (`ZarrStore.open_group`,
`dump_to_store`, not part of this repository); modelled from the spec
(§6, schema/metadata declarer): a fresh `LazyArrayWriter` is created and
`dump_to_store` calls `writer.add(source, target, region)` once per
variable write, after which `_initialized` is set. -/
def XarrayDatasetWriter.write_metadata (has_dask : HasDask)
    (w : XarrayDatasetWriter) : XarrayDatasetWriter :=
  let lw := w.dataset.foldl
    (fun acc task => acc.add has_dask task.1 task.2.1 task.2.2)
    LazyArrayWriter.init
  { w with writer := lw, _initialized := true }

/-- `XarrayDatasetWriter.write_eager()`: raise when `write_metadata` has not
run, otherwise run `self.writer.write_eager()` against the canonical store. -/
def XarrayDatasetWriter.write_eager (w : XarrayDatasetWriter) :
    Outcome XarrayDatasetWriter :=
  if !w._initialized then Outcome.raised NotInitializedError w
  else
    match w.writer.write_eager w.store with
    | Outcome.ok (lw, s) => Outcome.ok { w with writer := lw, store := s }
    | Outcome.raised e (lw, s) => Outcome.raised e { w with writer := lw, store := s }

/-- `XarrayDatasetWriter.write_lazy(chunkmanager_store_kwargs, split_every)`:
raise when `write_metadata` has not run; return immediately when there are
no deferred sources; otherwise `writer.sync(compute=False)` schedules one
chunk task per deferred triple and drains the deferred lists, the computed
change-sets are tree-reduced by `stateful_store_reduce`, and the single
resulting change-set is merged into the canonical store with one
`self.store.merge(...)` call. A chunk-task failure surfaces during the
compute, leaving the canonical store untouched. -/
def XarrayDatasetWriter.write_lazy (w : XarrayDatasetWriter)
    (split_every : Option Nat) : Outcome XarrayDatasetWriter :=
  if !w._initialized then Outcome.raised NotInitializedError w
  else if w.writer.sources.isEmpty then Outcome.ok w
  else
    let drained :=
      { w.writer with sources := [], targets := [], regions := [] }
    match runChunkTasks w.writer.sources w.writer.targets w.writer.regions with
    | Except.error e => Outcome.raised e { w with writer := drained }
    | Except.ok stored_arrays =>
      match stateful_store_reduce split_every stored_arrays with
      | none =>
        Outcome.raised (Err.valueError "reduce of empty sequence")
          { w with writer := drained }
      | some merged_store =>
        Outcome.ok
          { w with writer := drained
                   store := w.store.merge merged_store.change_set_bytes }

/-- `to_icechunk(dataset, store, ...)`: construct the writer, then run
`write_metadata`, `write_eager`, `write_lazy` in order; the first raised
exception propagates to the caller. -/
def to_icechunk (dataset : Dataset) (store : StoreArg) (has_dask : HasDask)
    (split_every : Option Nat) : Except Err XarrayDatasetWriter :=
  match mkXarrayDatasetWriter dataset store with
  | Except.error e => Except.error e
  | Except.ok writer =>
    let writer := writer.write_metadata has_dask
    match writer.write_eager with
    | Outcome.raised e _ => Except.error e
    | Outcome.ok writer =>
      match writer.write_lazy split_every with
      | Outcome.raised e _ => Except.error e
      | Outcome.ok writer => Except.ok writer

/-! Helper lemmas about store-visible content. -/

theorem lookupCS_append (a b : List WriteRec) (t : Loc) (i : Idx) :
    lookupCS (a ++ b) t i =
      match lookupCS b t i with
      | some v => some v
      | none => lookupCS a t i := by
  induction a with
  | nil =>
    cases hb : lookupCS b t i <;> simp [lookupCS, hb]
  | cons r a ih =>
    simp only [List.cons_append, lookupCS, List.append_eq]
    rw [ih]
    cases hb : lookupCS b t i <;> rfl

theorem lookupCS_eq_none_of_target_not_mem (cs : List WriteRec) (t : Loc)
    (i : Idx) (h : ∀ r ∈ cs, r.target ≠ t) : lookupCS cs t i = none := by
  induction cs with
  | nil => rfl
  | cons r rest ih =>
    have hr : r.target ≠ t := h r (by simp)
    have hrest := ih (fun x hx => h x (by simp [hx]))
    simp only [lookupCS, hrest]
    rw [if_neg (fun hc => hr hc.1)]

theorem lookupCS_some_target_mem (cs : List WriteRec) (t : Loc) (i : Idx)
    (v : Nat) (h : lookupCS cs t i = some v) : ∃ r ∈ cs, r.target = t := by
  induction cs generalizing v with
  | nil => simp [lookupCS] at h
  | cons r rest ih =>
    cases hrest : lookupCS rest t i with
    | some u =>
      obtain ⟨x, hx, hxt⟩ := ih u hrest
      exact ⟨x, by simp [hx], hxt⟩
    | none =>
      simp only [lookupCS, hrest] at h
      by_cases hc : r.target = t ∧ r.index = i
      · exact ⟨r, by simp, hc.1⟩
      · rw [if_neg hc] at h
        exact absurd h (by simp)

theorem effectEq_append_comm_of_disjoint (a b : List WriteRec)
    (hab : DisjointCS a b) : EffectEq (a ++ b) (b ++ a) := by
  intro t i
  rw [lookupCS_append, lookupCS_append]
  cases hb : lookupCS b t i with
  | some v =>
    cases ha : lookupCS a t i with
    | some u =>
      obtain ⟨ra, hra, hrat⟩ := lookupCS_some_target_mem a t i u ha
      obtain ⟨rb, hrb, hrbt⟩ := lookupCS_some_target_mem b t i v hb
      exact absurd (hrbt.symm ▸ hrat) (hab ra hra rb hrb)
    | none => simp [ha]
  | none =>
    cases ha : lookupCS a t i <;> simp [ha]

/-! The claim theorems. -/

/-- C2: merging change-sets of store handles derived from the same base
version is, up to store-visible effect, associative, commutative for
pairwise disjoint target locations, and has the empty change-set as
identity; `merge_stores` combines handles by exactly these
`store.merge(other.change_set_bytes())` steps, so any grouping or order
fed to it yields the same final store content. -/
theorem merge_stores_assoc_comm (A B C E : IcechunkStore)
    (hAB : DisjointCS A.pending B.pending)
    (hAC : DisjointCS A.pending C.pending)
    (hBC : DisjointCS B.pending C.pending)
    (hE : E.pending = []) :
    (∀ X Y : IcechunkStore,
      merge_stores [X, Y] = some (X.merge Y.change_set_bytes)) ∧
    EffectEq ((A.merge B.change_set_bytes).merge C.change_set_bytes).pending
      (A.merge (B.merge C.change_set_bytes).change_set_bytes).pending ∧
    EffectEq (A.merge B.change_set_bytes).pending
      (B.merge A.change_set_bytes).pending ∧
    EffectEq (A.merge E.change_set_bytes).pending A.pending ∧
    EffectEq (E.merge A.change_set_bytes).pending A.pending := by
  refine ⟨fun X Y => rfl, ?_, ?_, ?_, ?_⟩
  · intro t i
    show lookupCS ((A.pending ++ B.pending) ++ C.pending) t i =
      lookupCS (A.pending ++ (B.pending ++ C.pending)) t i
    rw [List.append_assoc]
  · exact effectEq_append_comm_of_disjoint A.pending B.pending hAB
  · intro t i
    show lookupCS (A.pending ++ E.pending) t i = lookupCS A.pending t i
    rw [hE, List.append_nil]
  · intro t i
    show lookupCS (E.pending ++ A.pending) t i = lookupCS A.pending t i
    rw [hE, List.nil_append]

/-- Witness for C2: concrete disjoint single-write change-sets. -/
theorem merge_stores_assoc_comm_witness :
    DisjointCS [⟨0, Idx.whole, 1⟩] [⟨1, Idx.whole, 2⟩] ∧
    EffectEq
      ((⟨[⟨0, Idx.whole, 1⟩], []⟩ : IcechunkStore).merge
        (⟨[⟨1, Idx.whole, 2⟩], []⟩ : IcechunkStore).change_set_bytes).pending
      ((⟨[⟨1, Idx.whole, 2⟩], []⟩ : IcechunkStore).merge
        (⟨[⟨0, Idx.whole, 1⟩], []⟩ : IcechunkStore).change_set_bytes).pending :=
  ⟨by decide,
    (merge_stores_assoc_comm
      ⟨[⟨0, Idx.whole, 1⟩], []⟩ ⟨[⟨1, Idx.whole, 2⟩], []⟩
      ⟨[⟨2, Idx.whole, 3⟩], []⟩ ⟨[], []⟩
      (by decide) (by decide) (by decide) rfl).2.2.1⟩

theorem zipStrictWrites_ok (vs : List Value) (ts : List Loc)
    (rs : List (Option Nat)) (s : IcechunkStore)
    (h1 : vs.length = ts.length) (h2 : ts.length = rs.length) :
    zipStrictWrites vs ts rs s =
      Outcome.ok { s with pending := s.pending ++ eagerRecs vs ts rs } := by
  induction vs generalizing ts rs s with
  | nil =>
    cases ts with
    | nil =>
      cases rs with
      | nil => simp [zipStrictWrites, eagerRecs]
      | cons r rs => simp at h2
    | cons t ts => simp at h1
  | cons v vs ih =>
    cases ts with
    | nil => simp at h1
    | cons t ts =>
      cases rs with
      | nil => simp at h2
      | cons r rs =>
        rw [zipStrictWrites, ih ts rs _ (by simpa using h1) (by simpa using h2)]
        simp [writeOne, IcechunkStore.write, eagerRecs]

theorem zipStrictWrites_mismatch (vs : List Value) (ts : List Loc)
    (rs : List (Option Nat)) (s : IcechunkStore)
    (h : ¬(vs.length = ts.length ∧ ts.length = rs.length)) :
    ∃ s', zipStrictWrites vs ts rs s =
      Outcome.raised (Err.valueError "zip strict length mismatch") s' := by
  induction vs generalizing ts rs s with
  | nil =>
    cases ts with
    | nil =>
      cases rs with
      | nil => simp at h
      | cons r rs => exact ⟨s, rfl⟩
    | cons t ts =>
      cases rs with
      | nil => exact ⟨s, rfl⟩
      | cons r rs => exact ⟨s, rfl⟩
  | cons v vs ih =>
    cases ts with
    | nil =>
      cases rs with
      | nil => exact ⟨s, rfl⟩
      | cons r rs => exact ⟨s, rfl⟩
    | cons t ts =>
      cases rs with
      | nil => exact ⟨s, rfl⟩
      | cons r rs =>
        rw [zipStrictWrites]
        exact ih ts rs (writeOne s v t r) (by simp at h ⊢; omega)

/-- C5: every task handed to `LazyArrayWriter.add` is classified exactly
once by the chunked-array test: a chunked source goes to the deferred
lists (`sources`/`targets`/`regions`) leaving the eager lists untouched,
any other source goes to the eager lists leaving the deferred lists
untouched; the two groups of lists partition the added tasks. -/
theorem add_classifies_once (has_dask : HasDask) (w : LazyArrayWriter)
    (source : Value) (target : Loc) (region : Option Nat) :
    (is_chunked_array has_dask source = true →
      w.add has_dask source target region =
        { w with
          sources := w.sources ++ [source]
          targets := w.targets ++ [target]
          regions := w.regions ++ [region] }) ∧
    (is_chunked_array has_dask source = false →
      w.add has_dask source target region =
        { w with
          eager_sources := w.eager_sources ++ [source]
          eager_targets := w.eager_targets ++ [target]
          eager_regions := w.eager_regions ++ [region] }) ∧
    (w.add has_dask source target region).sources.length +
        (w.add has_dask source target region).eager_sources.length =
      w.sources.length + w.eager_sources.length + 1 := by
  refine ⟨fun h => ?_, fun h => ?_, ?_⟩
  · simp [LazyArrayWriter.add, h]
  · simp [LazyArrayWriter.add, h]
  · by_cases h : is_chunked_array has_dask source <;>
      simp [LazyArrayWriter.add, h] <;> omega

/-- Witness for C5: a dask-backed source is deferred, a plain one eager. -/
theorem add_classifies_once_witness :
    (LazyArrayWriter.init.add true ⟨true, false, 7⟩ 3 none).sources =
        [⟨true, false, 7⟩] ∧
    (LazyArrayWriter.init.add true ⟨false, false, 8⟩ 4 (some 1)).eager_sources =
        [⟨false, false, 8⟩] := by
  constructor
  · rw [(add_classifies_once true LazyArrayWriter.init ⟨true, false, 7⟩ 3
      none).1 (by decide)]
    rfl
  · rw [(add_classifies_once true LazyArrayWriter.init ⟨false, false, 8⟩ 4
      (some 1)).2.1 (by decide)]
    rfl

/-- C6: under `write_metadata`-initialization, `write_eager` processes the
three eager lists in lockstep: with equal lengths it writes every source
value at its target, restricted to the sub-region when one was given and
the whole array otherwise, and drains the lists; with unequal lengths the
strict zip raises `ValueError`. -/
theorem write_eager_executes_tasks (w : XarrayDatasetWriter)
    (hinit : w._initialized = true) :
    (w.writer.eager_sources.length = w.writer.eager_targets.length ∧
       w.writer.eager_targets.length = w.writer.eager_regions.length →
      w.write_eager =
        Outcome.ok
          { w with
            writer := { w.writer with
              eager_sources := [], eager_targets := [], eager_regions := [] }
            store := { w.store with
              pending := w.store.pending ++
                eagerRecs w.writer.eager_sources w.writer.eager_targets
                  w.writer.eager_regions } }) ∧
    (¬(w.writer.eager_sources.length = w.writer.eager_targets.length ∧
        w.writer.eager_targets.length = w.writer.eager_regions.length) →
      ∃ w', w.write_eager =
        Outcome.raised (Err.valueError "zip strict length mismatch") w') := by
  constructor
  · intro ⟨h1, h2⟩
    rw [XarrayDatasetWriter.write_eager, LazyArrayWriter.write_eager,
      zipStrictWrites_ok _ _ _ _ h1 h2]
    simp [hinit]
  · intro h
    obtain ⟨s', hs'⟩ :=
      zipStrictWrites_mismatch w.writer.eager_sources w.writer.eager_targets
        w.writer.eager_regions w.store h
    refine ⟨{ w with store := s' }, ?_⟩
    rw [XarrayDatasetWriter.write_eager, LazyArrayWriter.write_eager, hs']
    simp [hinit]

/-- Witness for C6: one eager task is written at its whole-array target. -/
theorem write_eager_executes_tasks_witness :
    (XarrayDatasetWriter.write_eager
        ⟨[], ⟨[], []⟩, true, ⟨[], [], [], [⟨false, false, 9⟩], [4], [none]⟩⟩) =
      Outcome.ok
        ⟨[], ⟨[⟨4, Idx.whole, 9⟩], []⟩, true, ⟨[], [], [], [], [], []⟩⟩ := by
  rw [(write_eager_executes_tasks
    ⟨[], ⟨[], []⟩, true, ⟨[], [], [], [⟨false, false, 9⟩], [4], [none]⟩⟩
    rfl).1 (by constructor <;> rfl)]
  rfl

/-- C8: the eager phase is idempotent: a completed `write_eager` leaves the
eager task lists empty, and running it again succeeds with zero writes,
returning the writer and store unchanged. -/
theorem write_eager_idempotent (w w' : XarrayDatasetWriter)
    (h : w.write_eager = Outcome.ok w') :
    w'.writer.eager_sources = [] ∧ w'.writer.eager_targets = [] ∧
    w'.writer.eager_regions = [] ∧ w'.write_eager = Outcome.ok w' := by
  rw [XarrayDatasetWriter.write_eager] at h
  by_cases hi : w._initialized
  · rw [LazyArrayWriter.write_eager] at h
    simp only [hi, Bool.not_true, Bool.false_eq_true, if_false] at h
    cases hz : zipStrictWrites w.writer.eager_sources w.writer.eager_targets
        w.writer.eager_regions w.store with
    | ok s =>
      rw [hz] at h
      cases h
      refine ⟨rfl, rfl, rfl, ?_⟩
      rw [XarrayDatasetWriter.write_eager, LazyArrayWriter.write_eager]
      simp [hi, zipStrictWrites]
    | raised e s =>
      rw [hz] at h
      cases h
  · simp only [hi] at h
    cases h

/-- Witness for C8: re-running `write_eager` after the witnessed C6 run is
the identity on its result. -/
theorem write_eager_idempotent_witness :
    (XarrayDatasetWriter.write_eager
        ⟨[], ⟨[⟨4, Idx.whole, 9⟩], []⟩, true, ⟨[], [], [], [], [], []⟩⟩) =
      Outcome.ok
        ⟨[], ⟨[⟨4, Idx.whole, 9⟩], []⟩, true, ⟨[], [], [], [], [], []⟩⟩ :=
  (write_eager_idempotent
    ⟨[], ⟨[⟨4, Idx.whole, 9⟩], []⟩, true, ⟨[], [], [], [], [], []⟩⟩
    ⟨[], ⟨[⟨4, Idx.whole, 9⟩], []⟩, true, ⟨[], [], [], [], [], []⟩⟩
    (by rw [XarrayDatasetWriter.write_eager, LazyArrayWriter.write_eager]
        simp [zipStrictWrites])).2.2.2

/-- C7: with no deferred tasks, `write_lazy` of an initialized writer
returns immediately: the writer (and with it the canonical store, its
pending transaction and its merge log) is returned unchanged, before the
chunk tasks or the tree reduction are ever reached. -/
theorem write_lazy_noop_when_no_deferred (w : XarrayDatasetWriter)
    (split_every : Option Nat) (hinit : w._initialized = true)
    (hempty : w.writer.sources = []) :
    w.write_lazy split_every = Outcome.ok w := by
  rw [XarrayDatasetWriter.write_lazy]
  simp [hinit, hempty]

/-- Witness for C7: a writer with only eager tasks left. -/
theorem write_lazy_noop_when_no_deferred_witness :
    XarrayDatasetWriter.write_lazy
        ⟨[], ⟨[⟨4, Idx.whole, 9⟩], []⟩, true,
          ⟨[], [], [], [⟨false, false, 9⟩], [4], [none]⟩⟩ none =
      Outcome.ok
        ⟨[], ⟨[⟨4, Idx.whole, 9⟩], []⟩, true,
          ⟨[], [], [], [⟨false, false, 9⟩], [4], [none]⟩⟩ :=
  write_lazy_noop_when_no_deferred
    ⟨[], ⟨[⟨4, Idx.whole, 9⟩], []⟩, true,
      ⟨[], [], [], [⟨false, false, 9⟩], [4], [none]⟩⟩ none rfl rfl

/-- C3: invoking `write_eager` or `write_lazy` before `write_metadata` has
completed raises `NotInitializedError` (the code's `ValueError` asking to
call `write_metadata` first) immediately, returning the writer — canonical
store included — exactly as it was. -/
theorem phase_before_metadata_raises (w : XarrayDatasetWriter)
    (split_every : Option Nat) (h : w._initialized = false) :
    w.write_eager = Outcome.raised NotInitializedError w ∧
    w.write_lazy split_every = Outcome.raised NotInitializedError w := by
  constructor
  · rw [XarrayDatasetWriter.write_eager]
    simp [h]
  · rw [XarrayDatasetWriter.write_lazy]
    simp [h]

/-- Witness for C3: a freshly constructed writer. -/
theorem phase_before_metadata_raises_witness :
    XarrayDatasetWriter.write_eager
        ⟨[], ⟨[], []⟩, false, LazyArrayWriter.init⟩ =
      Outcome.raised NotInitializedError
        ⟨[], ⟨[], []⟩, false, LazyArrayWriter.init⟩ :=
  (phase_before_metadata_raises
    ⟨[], ⟨[], []⟩, false, LazyArrayWriter.init⟩ none rfl).1

/-- C9: constructing an `XarrayDatasetWriter` (and hence calling
`to_icechunk`) with a store argument that is not an `IcechunkStore` raises
`ValueError` during `__post_init__`, before any metadata declaration or
store mutation: `to_icechunk` short-circuits with the construction error
and never reaches its write phases. -/
theorem non_icechunk_store_rejected (dataset : Dataset) (tyName : String)
    (has_dask : HasDask) (split_every : Option Nat) :
    mkXarrayDatasetWriter dataset (StoreArg.other tyName) =
      Except.error (Err.valueError
        ("Please pass in an IcechunkStore. Recevied " ++ tyName ++
          " instead.")) ∧
    to_icechunk dataset (StoreArg.other tyName) has_dask split_every =
      Except.error (Err.valueError
        ("Please pass in an IcechunkStore. Recevied " ++ tyName ++
          " instead.")) := by
  exact ⟨rfl, rfl⟩

theorem foldl_add_no_dask (tasks : Dataset) (acc : LazyArrayWriter)
    (h : acc.sources = [] ∧ acc.targets = [] ∧ acc.regions = []) :
    (tasks.foldl (fun a task => a.add false task.1 task.2.1 task.2.2)
        acc).sources = [] ∧
    (tasks.foldl (fun a task => a.add false task.1 task.2.1 task.2.2)
        acc).targets = [] ∧
    (tasks.foldl (fun a task => a.add false task.1 task.2.1 task.2.2)
        acc).regions = [] := by
  induction tasks generalizing acc with
  | nil => exact h
  | cons task rest ih =>
    rw [List.foldl_cons]
    exact ih _ (by simp [LazyArrayWriter.add, is_chunked_array, h.1, h.2.1, h.2.2])

/-- C10: when dask is not importable, `is_chunked_array` is constantly
false, so `write_metadata` classifies every task of any dataset as eager:
the deferred lists stay empty and `write_lazy` is a no-op for the whole
operation. -/
theorem no_dask_all_eager (w : XarrayDatasetWriter) (split_every : Option Nat) :
    (∀ x : Value, is_chunked_array false x = false) ∧
    (w.write_metadata false).writer.sources = [] ∧
    (w.write_metadata false).writer.targets = [] ∧
    (w.write_metadata false).writer.regions = [] ∧
    (w.write_metadata false).write_lazy split_every =
      Outcome.ok (w.write_metadata false) := by
  have hfold := foldl_add_no_dask w.dataset LazyArrayWriter.init ⟨rfl, rfl, rfl⟩
  refine ⟨fun x => rfl, hfold.1, hfold.2.1, hfold.2.2, ?_⟩
  rw [XarrayDatasetWriter.write_lazy]
  have hinit : (w.write_metadata false)._initialized = true := rfl
  have hsrc : (w.write_metadata false).writer.sources = [] := hfold.1
  simp [hinit, hsrc]

/-- Witness for C10: no theorem hypotheses; a concrete dataset with a
dask-marked source is still classified eager without dask. -/
theorem no_dask_all_eager_witness :
    (XarrayDatasetWriter.write_metadata false
        ⟨[(⟨true, false, 5⟩, 7, none)], ⟨[], []⟩, false,
          LazyArrayWriter.init⟩).writer.sources = [] :=
  (no_dask_all_eager
    ⟨[(⟨true, false, 5⟩, 7, none)], ⟨[], []⟩, false,
      LazyArrayWriter.init⟩ none).2.1

theorem runChunkTasks_error_of_fail (vs : List Value) (ts : List Loc)
    (rs : List (Option Nat)) (h1 : vs.length = ts.length)
    (h2 : ts.length = rs.length) (hf : ∃ v ∈ vs, v.failsCompute = true) :
    ∃ t, runChunkTasks vs ts rs = Except.error (Err.taskExecutionError t) := by
  induction vs generalizing ts rs with
  | nil => simp at hf
  | cons v vs ih =>
    cases ts with
    | nil => simp at h1
    | cons t ts =>
      cases rs with
      | nil => simp at h2
      | cons r rs =>
        by_cases hv : v.failsCompute = true
        · refine ⟨t, ?_⟩
          rw [runChunkTasks]
          simp [runChunkTask, hv, Bind.bind, Except.bind]
        · have hf' : ∃ x ∈ vs, x.failsCompute = true := by
            obtain ⟨x, hx, hxf⟩ := hf
            rcases List.mem_cons.mp hx with hh | hh
            · exact absurd (hh ▸ hxf) hv
            · exact ⟨x, hh, hxf⟩
          obtain ⟨t', ht'⟩ :=
            ih ts rs (by simpa using h1) (by simpa using h2) hf'
          refine ⟨t', ?_⟩
          rw [runChunkTasks]
          simp [runChunkTask, hv, ht', Bind.bind, Except.bind]

/-- C1: when a deferred chunk task fails during `write_lazy`, the error
propagates and the canonical store handle — pending transaction and merge
log alike — is exactly as it was before `write_lazy` began; more
generally, every raising path of `write_lazy` (task execution or tree
reduction) leaves the canonical store untouched, so `merge` is never
called on it. -/
theorem write_lazy_failure_preserves_store (w : XarrayDatasetWriter)
    (split_every : Option Nat) :
    (∀ e w', w.write_lazy split_every = Outcome.raised e w' →
      w'.store = w.store) ∧
    (w._initialized = true →
      w.writer.sources.length = w.writer.targets.length →
      w.writer.targets.length = w.writer.regions.length →
      (∃ v ∈ w.writer.sources, v.failsCompute = true) →
      ∃ t w', w.write_lazy split_every =
          Outcome.raised (Err.taskExecutionError t) w' ∧
        w'.store = w.store) := by
  constructor
  · intro e w' h
    rw [XarrayDatasetWriter.write_lazy] at h
    split at h
    · cases h; rfl
    · split at h
      · cases h
      · split at h
        · cases h; rfl
        · split at h
          · cases h; rfl
          · cases h
  · intro hinit h1 h2 hf
    obtain ⟨t, ht⟩ := runChunkTasks_error_of_fail w.writer.sources
      w.writer.targets w.writer.regions h1 h2 hf
    have hne : w.writer.sources.isEmpty = false := by
      obtain ⟨v, hv, _⟩ := hf
      cases hs : w.writer.sources with
      | nil => rw [hs] at hv; simp at hv
      | cons a l => rfl
    refine ⟨t, { w with writer :=
      { w.writer with sources := [], targets := [], regions := [] } }, ?_, rfl⟩
    rw [XarrayDatasetWriter.write_lazy]
    simp [hinit, hne, ht]

/-- Witness for C1: one failing deferred task; the canonical store, holding
one prior pending write, survives untouched. -/
theorem write_lazy_failure_preserves_store_witness :
    ∃ t w', XarrayDatasetWriter.write_lazy
        ⟨[], ⟨[⟨4, Idx.whole, 9⟩], []⟩, true,
          ⟨[⟨true, true, 5⟩], [7], [none], [], [], []⟩⟩ none =
        Outcome.raised (Err.taskExecutionError t) w' ∧
      w'.store = (⟨[⟨4, Idx.whole, 9⟩], []⟩ : IcechunkStore) :=
  (write_lazy_failure_preserves_store
    ⟨[], ⟨[⟨4, Idx.whole, 9⟩], []⟩, true,
      ⟨[⟨true, true, 5⟩], [7], [none], [], [], []⟩⟩ none).2
    rfl rfl rfl ⟨⟨true, true, 5⟩, by simp, rfl⟩

/-- C4: a successful `write_lazy` with at least one deferred task runs the
chunk tasks, tree-reduces the resulting store handles to a single merged
store, and calls `merge` on the canonical store exactly once, with that
merged store's change-set: the merge log grows by exactly that one
entry. -/
theorem write_lazy_single_merge (w w' : XarrayDatasetWriter)
    (split_every : Option Nat) (hne : w.writer.sources ≠ [])
    (hok : w.write_lazy split_every = Outcome.ok w') :
    ∃ stored merged,
      runChunkTasks w.writer.sources w.writer.targets w.writer.regions =
        Except.ok stored ∧
      stateful_store_reduce split_every stored = some merged ∧
      w'.store = w.store.merge merged.change_set_bytes ∧
      w'.store.mergeLog = w.store.mergeLog ++ [merged.change_set_bytes] := by
  rw [XarrayDatasetWriter.write_lazy] at hok
  split at hok
  · cases hok
  · split at hok
    · rename_i hempty
      rw [List.isEmpty_iff] at hempty
      exact absurd hempty hne
    · split at hok
      · cases hok
      · rename_i stored hstored
        split at hok
        · cases hok
        · rename_i merged hmerged
          cases hok
          exact ⟨stored, merged, hstored, hmerged, rfl, rfl⟩

/-- Witness for C4: one deferred task; the reduction's single output store
is merged into the canonical handle exactly once. -/
theorem write_lazy_single_merge_witness :
    ∃ stored merged,
      runChunkTasks [⟨true, false, 5⟩] [7] [none] = Except.ok stored ∧
      stateful_store_reduce none stored = some merged ∧
      (XarrayDatasetWriter.mk [] (IcechunkStore.mk [⟨7, Idx.whole, 5⟩]
          [[⟨7, Idx.whole, 5⟩]]) true ⟨[], [], [], [], [], []⟩).store =
        (IcechunkStore.mk [] []).merge merged.change_set_bytes ∧
      (XarrayDatasetWriter.mk [] (IcechunkStore.mk [⟨7, Idx.whole, 5⟩]
          [[⟨7, Idx.whole, 5⟩]]) true ⟨[], [], [], [], [], []⟩).store.mergeLog =
        (IcechunkStore.mk [] []).mergeLog ++ [merged.change_set_bytes] :=
  write_lazy_single_merge
    ⟨[], ⟨[], []⟩, true, ⟨[⟨true, false, 5⟩], [7], [none], [], [], []⟩⟩
    ⟨[], ⟨[⟨7, Idx.whole, 5⟩], [[⟨7, Idx.whole, 5⟩]]⟩, true,
      ⟨[], [], [], [], [], []⟩⟩ none (by simp)
    (by rw [XarrayDatasetWriter.write_lazy]
        simp [runChunkTasks, runChunkTask, Bind.bind, Except.bind,
          stateful_store_reduce, treeReduce, extract_stores, regionToIdx,
          IcechunkStore.merge, IcechunkStore.change_set_bytes])

end Icechunk
